import Mathlib

/-!
A shallow embedding, in Lean 4, of the measurement-and-reporting pipeline of
the benchmark repository (modules bench.py, core.py, runner.py, utils.py and
cli.py), together with theorems settling the frozen claims about it.

Modelling conventions:
* Python floats are modelled as rationals; arithmetic is exact.
* Python dictionaries are modelled as insertion-ordered association lists;
  an assignment to an existing key overwrites the value in place, a new key
  is appended at the end.
* Fallible Python code is modelled with `Except PyError`; the error cases
  mirror the exceptions the interpreter raises (ZeroDivisionError when a
  float is divided by integer zero, statistics.StatisticsError when
  statistics.mean is applied to an empty list, TypeError when an order
  comparison is applied to an int and a str).
* The clock (time.perf_counter differences), the memory tracer peak and the
  process cpu percentages are external inputs; they enter the model as
  explicit oracle parameters.
-/

/-- The Python exceptions that the embedded code can raise. -/
inductive PyError where
  | zeroDivision : PyError
  | statisticsError : PyError
  | typeError : PyError
  | userError : Nat → PyError
deriving DecidableEq

/-- A Python float value that may be the special value float("inf"). -/
inductive PyFloat where
  | val : ℚ → PyFloat
  | inf : PyFloat
deriving DecidableEq

/-! ## Decimal string formatting (utils.py)

Python renders numbers with f-strings such as f"{x:.2f}".  The embedding
builds the decimal digit strings explicitly: `natDecimal` is the usual base
ten representation and `fmtFixed` is fixed-point rendering with `d` digits
after the point, rounding half to even as Python does. -/

/-- The character for the decimal digit `k % 10`. -/
def digitChar (k : ℕ) : Char := Char.ofNat (48 + k % 10)

/-- Digits of `n` in base ten, most significant first; `fuel` bounds the
recursion and is always sufficient when `fuel ≥ n`. -/
def natDecimalAux : ℕ → ℕ → List Char
  | 0, n => [digitChar n]
  | fuel + 1, n =>
    if n < 10 then [digitChar n]
    else natDecimalAux fuel (n / 10) ++ [digitChar (n % 10)]

/-- Base-ten digit string of a natural number, as Python str renders it. -/
def natDecimal (n : ℕ) : List Char := natDecimalAux n n

/-- Base-ten rendering of an integer, with a leading minus sign when
negative, as Python str renders it. -/
def intDecimal (n : ℤ) : String :=
  (if n < 0 then "-" else "") ++ String.mk (natDecimal n.natAbs)

/-- Pad a digit list with leading zeros up to length `d`. -/
def padZeros (d : ℕ) (l : List Char) : List Char :=
  List.replicate (d - l.length) '0' ++ l

/-- Round to the nearest integer, ties to even: the rounding mode Python
uses when formatting with f"{x:.Nf}". -/
def roundHalfEven (q : ℚ) : ℤ :=
  if Int.fract q < 1 / 2 then ⌊q⌋
  else if 1 / 2 < Int.fract q then ⌊q⌋ + 1
  else if ⌊q⌋ % 2 = 0 then ⌊q⌋ else ⌊q⌋ + 1

/-- Fixed-point rendering with `d` fractional digits, the model of the
Python f-string format specifier .df applied to a float. -/
def fmtFixed (q : ℚ) (d : ℕ) : String :=
  ((if roundHalfEven (q * (10 : ℚ) ^ d) < 0 then "-" else "") ++
      String.mk (natDecimal ((roundHalfEven (q * (10 : ℚ) ^ d)).natAbs / 10 ^ d)) ++ ".") ++
    String.mk (padZeros d (natDecimal ((roundHalfEven (q * (10 : ℚ) ^ d)).natAbs % 10 ^ d)))

/-- utils.format_duration: pick the largest readable unit, strict upper
bounds, two decimals; at sixty seconds and above, whole minutes (floor
division) and the remaining seconds. -/
def format_duration (seconds : ℚ) : String :=
  if seconds < 1 / 1000000 then fmtFixed (seconds * 1000000000) 2 ++ " ns"
  else if seconds < 1 / 1000 then fmtFixed (seconds * 1000000) 2 ++ " μs"
  else if seconds < 1 then fmtFixed (seconds * 1000) 2 ++ " ms"
  else if seconds < 60 then fmtFixed seconds 2 ++ " s"
  else
    intDecimal ⌊seconds / 60⌋ ++ "m " ++
      fmtFixed (seconds - 60 * (⌊seconds / 60⌋ : ℚ)) 2 ++ "s"

/-- utils.format_memory: None renders as "N/A", otherwise binary multiples
with two decimals (integers below 1024 render without decimals). -/
def format_memory : Option ℤ → String
  | none => "N/A"
  | some b =>
    if b < 1024 then intDecimal b ++ " B"
    else if b < 1024 ^ 2 then fmtFixed ((b : ℚ) / 1024) 2 ++ " KB"
    else if b < 1024 ^ 3 then fmtFixed ((b : ℚ) / 1024 ^ 2) 2 ++ " MB"
    else fmtFixed ((b : ℚ) / 1024 ^ 3) 2 ++ " GB"

/-! ## bench.py: measure_products and analyze_results -/

/-- statistics.mean: the arithmetic mean of a list, raising
statistics.StatisticsError on an empty list. -/
def pymean (l : List ℚ) : Except PyError ℚ :=
  if l = [] then Except.error PyError.statisticsError
  else Except.ok (l.sum / (l.length : ℚ))

/-- Assignment d[k] = v on an insertion-ordered dictionary: overwrite in
place when the key is present, append otherwise. -/
def dictInsert (d : List (String × ℚ)) (k : String) (v : ℚ) : List (String × ℚ) :=
  if d.any (fun p => p.1 == k) then
    d.map (fun p => if p.1 = k then (k, v) else p)
  else d ++ [(k, v)]

/-- The loop body of bench.measure_products: for each product, time the
synthetic workload `iterations` times and store the mean.  The timer oracle
gives the elapsed seconds of sample `j` of the product at position `i` of
the input.  With zero iterations, statistics.mean is applied to an empty
list and raises at the first product. -/
def measure_products_aux (timer : ℕ → ℕ → ℚ) (iterations : ℕ) :
    List String → ℕ → List (String × ℚ) → Except PyError (List (String × ℚ))
  | [], _, acc => Except.ok acc
  | p :: ps, idx, acc =>
    match pymean ((List.range iterations).map (timer idx)) with
    | Except.error e => Except.error e
    | Except.ok avg => measure_products_aux timer iterations ps (idx + 1) (dictInsert acc p avg)

/-- bench.measure_products: benchmark every product, returning the
dictionary from product name to mean elapsed seconds. -/
def measure_products (products : List String) (iterations : ℕ)
    (timer : ℕ → ℕ → ℚ) : Except PyError (List (String × ℚ)) :=
  measure_products_aux timer iterations products 0 []

/-- The analysis dictionary bench.analyze_results builds. -/
structure Analysis where
  fastest_product : String
  fastest_time : ℚ
  slowest_product : String
  slowest_time : ℚ
  average_time : ℚ
  performance_ratio : PyFloat
  total_products : ℕ
deriving DecidableEq

/-- bench.analyze_results: on an empty dictionary return the empty
dictionary (modelled as none); otherwise take min and max of the values,
locate their first indices with list.index, pair them with the product at
the same position, and divide max by min for the ratio unless the min is
not positive, in which case the ratio is float("inf"). -/
def analyze_results : List (String × ℚ) → Option Analysis
  | [] => none
  | (k, v) :: rest =>
    some
      { fastest_product :=
          (((k, v) :: rest).map Prod.fst).getD
            (List.indexOf (List.foldl min v (rest.map Prod.snd))
              (((k, v) :: rest).map Prod.snd)) ""
        fastest_time := List.foldl min v (rest.map Prod.snd)
        slowest_product :=
          (((k, v) :: rest).map Prod.fst).getD
            (List.indexOf (List.foldl max v (rest.map Prod.snd))
              (((k, v) :: rest).map Prod.snd)) ""
        slowest_time := List.foldl max v (rest.map Prod.snd)
        average_time :=
          (((k, v) :: rest).map Prod.snd).sum / ((((k, v) :: rest).length : ℕ) : ℚ)
        performance_ratio :=
          if 0 < List.foldl min v (rest.map Prod.snd) then
            PyFloat.val
              (List.foldl max v (rest.map Prod.snd) / List.foldl min v (rest.map Prod.snd))
          else PyFloat.inf
        total_products := ((k, v) :: rest).length }

/-! ## core.py: BenchmarkResult and Benchmark.run -/

/-- core.BenchmarkResult, the dataclass a benchmark run produces. -/
structure BenchmarkResult where
  name : String
  execution_time : ℚ
  memory_usage : Option ℤ
  cpu_usage : Option ℚ
  iterations : ℕ
  metadata : List (String × String)
deriving DecidableEq

/-- The configuration fields of core.Benchmark, with the setup and teardown
callables represented by their presence. -/
structure Benchmark where
  name : String
  setupPresent : Bool
  teardownPresent : Bool
  iterations : ℕ
  measure_memory : Bool
  measure_cpu : Bool
deriving DecidableEq

/-- The external world a run observes: whether the setup callable raises
when invoked, the behavior of the benchmarked function at each iteration
(an exception or the elapsed seconds of that call), the peak the memory
tracer reports, and the two cpu percentage samples. -/
structure RunEnv where
  setupRaises : Option PyError
  funcRun : ℕ → Except PyError ℚ
  peakMemory : ℤ
  cpuStart : ℚ
  cpuEnd : ℚ

/-- What a call of Benchmark.run does, as seen by the caller: the returned
result or the propagated exception, and how many times the teardown
callable was invoked on the way. -/
structure RunOutcome where
  result : Except PyError BenchmarkResult
  teardownCalls : ℕ

/-- The measurement loop of Benchmark.run: call the function `n` times,
summing the elapsed times; the first exception aborts the loop and
propagates. -/
def runIterations (f : ℕ → Except PyError ℚ) : ℕ → ℕ → Except PyError ℚ
  | _, 0 => Except.ok 0
  | i, n + 1 =>
    match f i with
    | Except.error e => Except.error e
    | Except.ok t =>
      match runIterations f (i + 1) n with
      | Except.error e => Except.error e
      | Except.ok s => Except.ok (t + s)

/-- core.Benchmark.run.  The setup call stands before the try block, so a
setup exception propagates without the teardown running.  The loop, the
average (a Python float division that raises ZeroDivisionError when the
iteration count is zero) and the memory and cpu reads stand inside the try
block; the finally clause invokes the teardown exactly once whether the try
block completed or raised. -/
def Benchmark.run (b : Benchmark) (env : RunEnv) : RunOutcome :=
  match b.setupPresent, env.setupRaises with
  | true, some e => { result := Except.error e, teardownCalls := 0 }
  | _, _ =>
    let td := if b.teardownPresent then 1 else 0
    match runIterations env.funcRun 0 b.iterations with
    | Except.error e => { result := Except.error e, teardownCalls := td }
    | Except.ok total =>
      if b.iterations = 0 then
        { result := Except.error PyError.zeroDivision, teardownCalls := td }
      else
        { result := Except.ok
            { name := b.name
              execution_time := total / (b.iterations : ℚ)
              memory_usage := if b.measure_memory then some env.peakMemory else none
              cpu_usage := if b.measure_cpu then some (env.cpuEnd - env.cpuStart) else none
              iterations := b.iterations
              metadata := [] }
          teardownCalls := td }

/-! ## runner.py: BenchmarkRunner.generate_report

The report builds one row per result.  The memory and cpu columns are
guarded by Python truthiness of the optional value, so both None and a
present zero render as "N/A".  Sorting goes through getattr with the given
attribute name, with only AttributeError caught: an unknown attribute name
falls back to insertion order, while a TypeError from comparing keys of
mixed runtime types propagates.  An order comparison mixes types exactly
when the key expression `getattr(r, sort_by) or 0` coerces a falsy value
(an empty name, an empty metadata dictionary) to the integer zero for some
rows and not for others, or yields dictionaries; CPython compares adjacent
elements while sorting any list of two or more elements, so such a list
always raises. -/

/-- The memory column of one report row. -/
def memCell (r : BenchmarkResult) : String :=
  match r.memory_usage with
  | none => "N/A"
  | some m => if m = 0 then "N/A" else format_memory (some m)

/-- The cpu column of one report row. -/
def cpuCell (r : BenchmarkResult) : String :=
  match r.cpu_usage with
  | none => "N/A"
  | some c => if c = 0 then "N/A" else fmtFixed c 1

/-- One row of the tabular report. -/
def reportRow (r : BenchmarkResult) : List String :=
  [r.name, format_duration r.execution_time, memCell r, cpuCell r,
    String.mk (natDecimal r.iterations)]

/-- Descending comparison on execution_time (reverse sort). -/
def timeGe (a b : BenchmarkResult) : Bool := decide (b.execution_time ≤ a.execution_time)

/-- Descending comparison on memory_usage, a falsy None coerced to 0. -/
def memGe (a b : BenchmarkResult) : Bool :=
  decide (b.memory_usage.getD 0 ≤ a.memory_usage.getD 0)

/-- Descending comparison on cpu_usage, a falsy None coerced to 0. -/
def cpuGe (a b : BenchmarkResult) : Bool :=
  decide (b.cpu_usage.getD 0 ≤ a.cpu_usage.getD 0)

/-- Descending comparison on the iteration count. -/
def iterGe (a b : BenchmarkResult) : Bool := decide (b.iterations ≤ a.iterations)

/-- Ascending comparison on the name (the one attribute sorted forward). -/
def nameLe (a b : BenchmarkResult) : Bool := decide (a.name ≤ b.name)

/-- The sorting step of generate_report, one case per attribute the dynamic
getattr lookup can find; a name that is no attribute of BenchmarkResult
raises AttributeError, which the source catches and answers with insertion
order.  Python sorted is stable, as is List.mergeSort. -/
def sortResults (results : List BenchmarkResult) (sortBy : String) :
    Except PyError (List BenchmarkResult) :=
  if sortBy = "name" then
    if results.any (fun r => r.name == "") && results.any (fun r => r.name != "") then
      Except.error PyError.typeError
    else Except.ok (results.mergeSort nameLe)
  else if sortBy = "execution_time" then Except.ok (results.mergeSort timeGe)
  else if sortBy = "memory_usage" then Except.ok (results.mergeSort memGe)
  else if sortBy = "cpu_usage" then Except.ok (results.mergeSort cpuGe)
  else if sortBy = "iterations" then Except.ok (results.mergeSort iterGe)
  else if sortBy = "metadata" then
    if results.any (fun r => !r.metadata.isEmpty) && decide (2 ≤ results.length) then
      Except.error PyError.typeError
    else Except.ok results
  else Except.ok results

/-- The two shapes generate_report can return: the fixed message for an
empty result list, or the table rows. -/
inductive ReportOutput where
  | noResults : ReportOutput
  | table : List (List String) → ReportOutput
deriving DecidableEq

/-- runner.BenchmarkRunner.generate_report, at the level of the table data
handed to tabulate. -/
def generate_report (results : List BenchmarkResult) (sortBy : String) :
    Except PyError ReportOutput :=
  if results.isEmpty then Except.ok ReportOutput.noResults
  else
    match sortResults results sortBy with
    | Except.error e => Except.error e
    | Except.ok sorted => Except.ok (ReportOutput.table (sorted.map reportRow))

/-! ## cli.py: save_to_csv and the argument handling of main -/

/-- A value handed to the csv writer, which stringifies it: a string, a
float, a float that may be infinite, or an int. -/
inductive CsvCell where
  | s : String → CsvCell
  | q : ℚ → CsvCell
  | f : PyFloat → CsvCell
  | n : ℕ → CsvCell
deriving DecidableEq

/-- cli.save_to_csv, at the level of the rows handed to the csv writer:
the header, one row per product sorted ascending by time with the rank from
enumerate(..., 1), and, when an analysis dictionary is present (a Python
truthiness test, so the empty dictionary from an empty benchmark counts as
absent), a blank separator row, an Analysis/Value header and six key/value
rows. -/
def save_to_csv (results : List (String × ℚ)) (analysis : Option Analysis) :
    List (List CsvCell) :=
  [[CsvCell.s "Product", CsvCell.s "Execution_Time_Seconds", CsvCell.s "Rank"]] ++
    (List.enumFrom 1 (results.mergeSort (fun a b => decide (a.2 ≤ b.2)))).map
      (fun x => [CsvCell.s x.2.1, CsvCell.q x.2.2, CsvCell.n x.1]) ++
    (match analysis with
     | none => []
     | some a =>
       [[],
        [CsvCell.s "Analysis", CsvCell.s "Value"],
        [CsvCell.s "Fastest_Product", CsvCell.s a.fastest_product],
        [CsvCell.s "Fastest_Time", CsvCell.q a.fastest_time],
        [CsvCell.s "Slowest_Product", CsvCell.s a.slowest_product],
        [CsvCell.s "Slowest_Time", CsvCell.q a.slowest_time],
        [CsvCell.s "Performance_Ratio", CsvCell.f a.performance_ratio],
        [CsvCell.s "Average_Time", CsvCell.q a.average_time]])

/-- How a cli invocation ends before or at the orchestration step: an early
process exit with a code and a flag for a message on the error stream, or
entry into the measurement run with the effective product list and
iteration count. -/
inductive CliOutcome where
  | exit : ℕ → Bool → CliOutcome
  | measure : List String → ℤ → CliOutcome
deriving DecidableEq

/-- The argument handling of cli.main.  The -p flag is declared with
argparse nargs="+", and argparse itself rejects the flag with zero values:
it prints the usage and an error to stderr and exits with code 2 before any
code of main after parse_args runs (the repository test suite pins this
exit code).  Main then validates the iteration count (exit 1) and the
product list (exit 1; unreachable through the flag, since argparse already
rejected the empty value list). -/
def cli_main (productsFlag : Option (List String)) (iterations : ℤ) : CliOutcome :=
  match productsFlag with
  | some [] => CliOutcome.exit 2 true
  | _ =>
    let products := productsFlag.getD ["ProductA", "ProductB", "ProductC", "ProductD"]
    if iterations ≤ 0 then CliOutcome.exit 1 true
    else if products = [] then CliOutcome.exit 1 true
    else CliOutcome.measure products iterations

/-! ## Helper lemmas about the measurement loop -/

/-- When every call of the function up to `n` succeeds, the measurement
loop succeeds. -/
lemma runIterations_ok (f : ℕ → Except PyError ℚ) :
    ∀ (n i : ℕ), (∀ j, j < n → ∃ t, f (i + j) = Except.ok t) →
      ∃ s, runIterations f i n = Except.ok s := by
  intro n
  induction n with
  | zero => exact fun i _ => ⟨0, rfl⟩
  | succ m ih =>
    intro i h
    obtain ⟨t, ht⟩ := h 0 (Nat.succ_pos m)
    rw [Nat.add_zero] at ht
    obtain ⟨s, hs⟩ := ih (i + 1) (fun j hj => by
      obtain ⟨u, hu⟩ := h (j + 1) (Nat.succ_lt_succ hj)
      exact ⟨u, by rw [← hu]; congr 1; omega⟩)
    exact ⟨t + s, by simp [runIterations, ht, hs]⟩

/-- When the function first raises at call `k < n`, the measurement loop
propagates exactly that exception. -/
lemma runIterations_error (f : ℕ → Except PyError ℚ) :
    ∀ (n k i : ℕ) (e : PyError), k < n → f (i + k) = Except.error e →
      (∀ j, j < k → ∃ t, f (i + j) = Except.ok t) →
      runIterations f i n = Except.error e := by
  intro n
  induction n with
  | zero => omega
  | succ m ih =>
    intro k i e hk he hbefore
    match k with
    | 0 =>
      rw [Nat.add_zero] at he
      simp [runIterations, he]
    | k' + 1 =>
      obtain ⟨t, ht⟩ := hbefore 0 (Nat.succ_pos k')
      rw [Nat.add_zero] at ht
      have he' : f (i + 1 + k') = Except.error e := by rw [← he]; congr 1; omega
      have hb' : ∀ j, j < k' → ∃ u, f (i + 1 + j) = Except.ok u := by
        intro j hj
        obtain ⟨u, hu⟩ := hbefore (j + 1) (Nat.succ_lt_succ hj)
        exact ⟨u, by rw [← hu]; congr 1; omega⟩
      have := ih k' (i + 1) e (by omega) he' hb'
      simp [runIterations, ht, this]

/-! ## Claim C3 -/

/-- C3: with a teardown configured (and the setup, which stands before the
protected region, not raising), Benchmark.run invokes the teardown exactly
once on every exit path after the measurement loop starts; when the
workload first raises at some iteration, that exception propagates and no
result is produced, and when every iteration succeeds (and the division by
the iteration count does not raise), a BenchmarkResult is returned. -/
theorem benchmark_run_teardown (b : Benchmark) (env : RunEnv)
    (htd : b.teardownPresent = true)
    (hs : b.setupPresent = true → env.setupRaises = none) :
    (b.run env).teardownCalls = 1 ∧
    (∀ e k, k < b.iterations → env.funcRun k = Except.error e →
        (∀ j, j < k → ∃ t, env.funcRun j = Except.ok t) →
      (b.run env).result = Except.error e) ∧
    ((∀ j, j < b.iterations → ∃ t, env.funcRun j = Except.ok t) → 1 ≤ b.iterations →
      ∃ r, (b.run env).result = Except.ok r ∧ r.iterations = b.iterations) := by
  have hrun : b.run env =
      (let td := if b.teardownPresent then 1 else 0
       match runIterations env.funcRun 0 b.iterations with
       | Except.error e => { result := Except.error e, teardownCalls := td }
       | Except.ok total =>
         if b.iterations = 0 then
           { result := Except.error PyError.zeroDivision, teardownCalls := td }
         else
           { result := Except.ok
               { name := b.name
                 execution_time := total / (b.iterations : ℚ)
                 memory_usage := if b.measure_memory then some env.peakMemory else none
                 cpu_usage := if b.measure_cpu then some (env.cpuEnd - env.cpuStart) else none
                 iterations := b.iterations
                 metadata := [] }
             teardownCalls := td } : RunOutcome) := by
    cases hb : b.setupPresent with
    | false =>
      cases env.setupRaises with
      | none => simp [Benchmark.run, hb]
      | some e => simp [Benchmark.run, hb]
    | true => simp [Benchmark.run, hb, hs hb]
  refine ⟨?_, ?_, ?_⟩
  · rw [hrun]
    rcases hri : runIterations env.funcRun 0 b.iterations with e | total
    · simp [htd]
    · by_cases h0 : b.iterations = 0 <;> simp [htd, h0]
  · intro e k hk he hbefore
    have herr : runIterations env.funcRun 0 b.iterations = Except.error e := by
      refine runIterations_error env.funcRun b.iterations k 0 e hk ?_ ?_
      · rw [Nat.zero_add]; exact he
      · intro j hj
        obtain ⟨t, ht⟩ := hbefore j hj
        exact ⟨t, by rw [Nat.zero_add]; exact ht⟩
    rw [hrun, herr]
  · intro hall hpos
    obtain ⟨s, hsrun⟩ := runIterations_ok env.funcRun b.iterations 0 (fun j hj => by
      obtain ⟨t, ht⟩ := hall j hj
      exact ⟨t, by rw [Nat.zero_add]; exact ht⟩)
    rw [hrun, hsrun]
    have h0 : ¬ b.iterations = 0 := by omega
    simp only [if_neg h0]
    exact ⟨_, rfl, rfl⟩

/-- C3 witness: the theorem applied at a concrete benchmark and a concrete
environment. -/
theorem benchmark_run_teardown_witness :
    ((Benchmark.mk "demo" false true 2 false false).run
      (RunEnv.mk none (fun j => Except.ok (j + 1)) 0 0 0)).teardownCalls = 1 ∧
    (∀ e k, k < (Benchmark.mk "demo" false true 2 false false).iterations →
        (RunEnv.mk none (fun j => Except.ok (j + 1)) 0 0 0).funcRun k = Except.error e →
        (∀ j, j < k →
          ∃ t, (RunEnv.mk none (fun j => Except.ok (j + 1)) 0 0 0).funcRun j = Except.ok t) →
      ((Benchmark.mk "demo" false true 2 false false).run
        (RunEnv.mk none (fun j => Except.ok (j + 1)) 0 0 0)).result = Except.error e) ∧
    ((∀ j, j < (Benchmark.mk "demo" false true 2 false false).iterations →
        ∃ t, (RunEnv.mk none (fun j => Except.ok (j + 1)) 0 0 0).funcRun j = Except.ok t) →
      1 ≤ (Benchmark.mk "demo" false true 2 false false).iterations →
      ∃ r, ((Benchmark.mk "demo" false true 2 false false).run
          (RunEnv.mk none (fun j => Except.ok (j + 1)) 0 0 0)).result = Except.ok r ∧
        r.iterations = (Benchmark.mk "demo" false true 2 false false).iterations) :=
  benchmark_run_teardown (Benchmark.mk "demo" false true 2 false false)
    (RunEnv.mk none (fun j => Except.ok (j + 1)) 0 0 0) rfl (fun h => by cases h)

/-! ## Claim C9 -/

/-- C9: Benchmark.run is total only for an iteration count of at least one:
with zero iterations (and the setup not raising) the empty measurement loop
leaves the average division to raise ZeroDivisionError, so the run
propagates that error; every BenchmarkResult the run ever returns carries
an iteration count of at least one; and the constructor applies no
validation, so a Benchmark with zero iterations is constructible. -/
theorem benchmark_run_zero_iterations :
    (∀ (b : Benchmark) (env : RunEnv), b.iterations = 0 →
        (b.setupPresent = true → env.setupRaises = none) →
        (b.run env).result = Except.error PyError.zeroDivision) ∧
    (∀ (b : Benchmark) (env : RunEnv) (r : BenchmarkResult),
        (b.run env).result = Except.ok r → r.iterations = b.iterations ∧ 1 ≤ r.iterations) ∧
    (∃ b : Benchmark, b.iterations = 0) := by
  refine ⟨?_, ?_, ⟨Benchmark.mk "zero" false false 0 false false, rfl⟩⟩
  · intro b env h0 hs
    cases hb : b.setupPresent with
    | false =>
      cases env.setupRaises with
      | none => simp [Benchmark.run, hb, h0, runIterations]
      | some e => simp [Benchmark.run, hb, h0, runIterations]
    | true => simp [Benchmark.run, hb, hs hb, h0, runIterations]
  · intro b env r hok
    have hres : (b.run env).result = Except.ok r := hok
    cases hb : b.setupPresent with
    | true =>
      cases hsr : env.setupRaises with
      | some e => simp [Benchmark.run, hb, hsr] at hres
      | none =>
        simp only [Benchmark.run, hb, hsr] at hres
        rcases hri : runIterations env.funcRun 0 b.iterations with e | total
        · rw [hri] at hres; simp at hres
        · rw [hri] at hres
          by_cases h0 : b.iterations = 0
          · simp [h0] at hres
          · simp [h0] at hres
            have : r.iterations = b.iterations := by rw [← hres]
            exact ⟨this, by omega⟩
    | false =>
      cases hsr : env.setupRaises with
      | some e =>
        simp only [Benchmark.run, hb, hsr] at hres
        rcases hri : runIterations env.funcRun 0 b.iterations with e' | total
        · rw [hri] at hres; simp at hres
        · rw [hri] at hres
          by_cases h0 : b.iterations = 0
          · simp [h0] at hres
          · simp [h0] at hres
            have : r.iterations = b.iterations := by rw [← hres]
            exact ⟨this, by omega⟩
      | none =>
        simp only [Benchmark.run, hb, hsr] at hres
        rcases hri : runIterations env.funcRun 0 b.iterations with e' | total
        · rw [hri] at hres; simp at hres
        · rw [hri] at hres
          by_cases h0 : b.iterations = 0
          · simp [h0] at hres
          · simp [h0] at hres
            have : r.iterations = b.iterations := by rw [← hres]
            exact ⟨this, by omega⟩

/-- C9 witness: the zero-iteration branch of the theorem applied at a
concrete benchmark and environment. -/
theorem benchmark_run_zero_iterations_witness :
    ((Benchmark.mk "zero" false true 0 false false).run
      (RunEnv.mk none (fun _ => Except.ok 1) 0 0 0)).result =
      Except.error PyError.zeroDivision :=
  benchmark_run_zero_iterations.1 (Benchmark.mk "zero" false true 0 false false)
    (RunEnv.mk none (fun _ => Except.ok 1) 0 0 0) rfl (fun h => by cases h)

/-! ## Claim C10 -/

/-- C10: with zero iterations the Sampler applies statistics.mean to an
empty sample list, which raises, for every non-empty product list; with an
empty product iterable the loop body never runs and the empty mapping is
returned. -/
theorem measure_products_zero_iterations (products : List String) (timer : ℕ → ℕ → ℚ) :
    (products ≠ [] →
      measure_products products 0 timer = Except.error PyError.statisticsError) ∧
    measure_products [] 0 timer = Except.ok [] := by
  constructor
  · intro h
    match products, h with
    | p :: ps, _ => rfl
  · rfl

/-- C10 witness: the theorem applied at a concrete product list and timer. -/
theorem measure_products_zero_iterations_witness :
    measure_products ["ProductA"] 0 (fun _ _ => 0) = Except.error PyError.statisticsError :=
  (measure_products_zero_iterations ["ProductA"] (fun _ _ => 0)).1 (by simp)

/-! ## Claim C4 -/

/-- C4: a cli invocation whose -p flag carries no product names ends, still
inside argument handling and before any measurement, in a process exit with
code 2 and a message on the error stream. -/
theorem cli_empty_products_exit_two (iterations : ℤ) :
    cli_main (some []) iterations = CliOutcome.exit 2 true := rfl

/-! ## Helper lemmas about dictionary assignment -/

/-- Every entry after an assignment is an old entry or the assigned pair. -/
lemma dictInsert_mem (d : List (String × ℚ)) (k : String) (v : ℚ) :
    ∀ kv ∈ dictInsert d k v, kv ∈ d ∨ kv = (k, v) := by
  intro kv hkv
  unfold dictInsert at hkv
  by_cases h : d.any (fun p => p.1 == k)
  · rw [if_pos h] at hkv
    obtain ⟨p, hp, hpe⟩ := List.mem_map.mp hkv
    by_cases hk : p.1 = k
    · right; rw [if_pos hk] at hpe; exact hpe.symm
    · left; rw [if_neg hk] at hpe; exact hpe ▸ hp
  · rw [if_neg h] at hkv
    rcases List.mem_append.mp hkv with h1 | h1
    · exact Or.inl h1
    · exact Or.inr (List.mem_singleton.mp h1)

/-- The key set after an assignment is the old key set plus the assigned
key. -/
lemma dictInsert_keys (d : List (String × ℚ)) (k : String) (v : ℚ) (k0 : String) :
    (∃ w, (k0, w) ∈ dictInsert d k v) ↔ (∃ w, (k0, w) ∈ d) ∨ k0 = k := by
  constructor
  · rintro ⟨w, hw⟩
    rcases dictInsert_mem d k v (k0, w) hw with h | h
    · exact Or.inl ⟨w, h⟩
    · exact Or.inr (congrArg Prod.fst h)
  · intro h
    unfold dictInsert
    by_cases hany : d.any (fun p => p.1 == k)
    · rw [if_pos hany]
      rcases h with ⟨w, hw⟩ | rfl
      · by_cases hk : k0 = k
        · obtain ⟨p, hp, hpk⟩ := List.any_eq_true.mp hany
          refine ⟨v, List.mem_map.mpr ⟨p, hp, ?_⟩⟩
          rw [if_pos (by simpa using hpk)]
          rw [hk]
        · refine ⟨w, List.mem_map.mpr ⟨(k0, w), hw, ?_⟩⟩
          rw [if_neg hk]
      · obtain ⟨p, hp, hpk⟩ := List.any_eq_true.mp hany
        refine ⟨v, List.mem_map.mpr ⟨p, hp, ?_⟩⟩
        rw [if_pos (by simpa using hpk)]
    · rw [if_neg hany]
      rcases h with ⟨w, hw⟩ | rfl
      · exact ⟨w, List.mem_append.mpr (Or.inl hw)⟩
      · exact ⟨v, List.mem_append.mpr (Or.inr (List.mem_singleton.mpr rfl))⟩

/-! ## Claim C2 -/

/-- The induction step behind the Sampler claim: running the loop over the
remaining products extends the accumulated dictionary with exactly the
remaining keys, and every stored value is the arithmetic mean of one
position's samples. -/
lemma measure_products_aux_spec (timer : ℕ → ℕ → ℚ) (K : ℕ) (hK : 1 ≤ K)
    (ht : ∀ i j, 0 ≤ timer i j) :
    ∀ (ps : List String) (idx : ℕ) (acc : List (String × ℚ)),
      (∀ kv ∈ acc, 0 ≤ kv.2 ∧
        ∃ i, kv.2 = ((List.range K).map (timer i)).sum / (K : ℚ)) →
      ∃ d, measure_products_aux timer K ps idx acc = Except.ok d ∧
        (∀ k0, (∃ w, (k0, w) ∈ d) ↔ ((∃ w, (k0, w) ∈ acc) ∨ k0 ∈ ps)) ∧
        (∀ kv ∈ d, 0 ≤ kv.2 ∧
          ∃ i, kv.2 = ((List.range K).map (timer i)).sum / (K : ℚ)) := by
  intro ps
  induction ps with
  | nil =>
    intro idx acc hacc
    exact ⟨acc, rfl, fun k0 => by simp, hacc⟩
  | cons p ps ih =>
    intro idx acc hacc
    have hne : (List.range K).map (timer idx) ≠ [] := by
      simp [List.map_eq_nil_iff, List.range_eq_nil]
      omega
    have hmean : pymean ((List.range K).map (timer idx)) =
        Except.ok (((List.range K).map (timer idx)).sum / (K : ℚ)) := by
      unfold pymean
      rw [if_neg hne]
      congr 1
      rw [List.length_map, List.length_range]
    have havg : 0 ≤ ((List.range K).map (timer idx)).sum / (K : ℚ) := by
      apply div_nonneg
      · exact List.sum_nonneg (by
          intro x hx
          obtain ⟨j, _, rfl⟩ := List.mem_map.mp hx
          exact ht idx j)
      · positivity
    have hacc' : ∀ kv ∈ dictInsert acc p (((List.range K).map (timer idx)).sum / (K : ℚ)),
        0 ≤ kv.2 ∧ ∃ i, kv.2 = ((List.range K).map (timer i)).sum / (K : ℚ) := by
      intro kv hkv
      rcases dictInsert_mem acc p _ kv hkv with h | h
      · exact hacc kv h
      · rw [h]
        exact ⟨havg, idx, rfl⟩
    obtain ⟨d, hd, hkeys, hvals⟩ := ih (idx + 1) (dictInsert acc p _) hacc'
    refine ⟨d, ?_, ?_, hvals⟩
    · show measure_products_aux timer K (p :: ps) idx acc = Except.ok d
      unfold measure_products_aux
      rw [hmean]
      exact hd
    · intro k0
      rw [hkeys k0, dictInsert_keys]
      simp [List.mem_cons]
      tauto

/-- C2: for every iteration count of at least one and every (nonnegative)
timer behavior, the Sampler succeeds; its key set is exactly the set of
input product names, and every stored value is nonnegative, being the
arithmetic mean of the K samples of one input position. -/
theorem measure_products_spec (products : List String) (K : ℕ) (timer : ℕ → ℕ → ℚ)
    (hK : 1 ≤ K) (ht : ∀ i j, 0 ≤ timer i j) :
    ∃ d, measure_products products K timer = Except.ok d ∧
      (∀ k0, (∃ w, (k0, w) ∈ d) ↔ k0 ∈ products) ∧
      (∀ kv ∈ d, 0 ≤ kv.2 ∧
        ∃ i, kv.2 = ((List.range K).map (timer i)).sum / (K : ℚ)) := by
  obtain ⟨d, hd, hkeys, hvals⟩ :=
    measure_products_aux_spec timer K hK ht products 0 [] (by simp)
  exact ⟨d, hd, fun k0 => by simpa using hkeys k0, hvals⟩

/-- C2 witness: the theorem applied at a concrete product list, iteration
count and timer. -/
theorem measure_products_spec_witness :
    ∃ d, measure_products ["ProductA", "ProductB"] 1 (fun _ _ => 0) = Except.ok d ∧
      (∀ k0, (∃ w, (k0, w) ∈ d) ↔ k0 ∈ ["ProductA", "ProductB"]) ∧
      (∀ kv ∈ d, 0 ≤ kv.2 ∧
        ∃ i : ℕ, kv.2 = ((List.range 1).map (fun _ => (0 : ℚ))).sum / ((1 : ℕ) : ℚ)) :=
  measure_products_spec ["ProductA", "ProductB"] 1 (fun _ _ => 0) (le_refl 1)
    (fun _ _ => le_refl 0)

/-! ## Helper lemmas about the Python min, max and list.index -/

/-- The running minimum never exceeds its seed. -/
lemma foldl_min_le_init (l : List ℚ) : ∀ a : ℚ, List.foldl min a l ≤ a := by
  induction l with
  | nil => exact fun a => le_refl a
  | cons c t ih =>
    intro a
    calc List.foldl min (min a c) t ≤ min a c := ih (min a c)
    _ ≤ a := min_le_left a c

/-- Python min over a non-empty list bounds every element from below. -/
lemma foldl_min_le (l : List ℚ) : ∀ a : ℚ, ∀ b ∈ a :: l, List.foldl min a l ≤ b := by
  induction l with
  | nil =>
    intro a b hb
    rw [List.mem_singleton.mp hb]
    exact le_refl a
  | cons c t ih =>
    intro a b hb
    rcases List.mem_cons.mp hb with rfl | hb'
    · exact foldl_min_le_init (c :: t) b
    · rcases List.mem_cons.mp hb' with rfl | hb''
      · calc List.foldl min (min a b) t ≤ min a b := foldl_min_le_init t (min a b)
        _ ≤ b := min_le_right a b
      · exact ih (min a c) b (List.mem_cons_of_mem _ hb'')

/-- Python min over a non-empty list is one of its elements. -/
lemma foldl_min_mem (l : List ℚ) : ∀ a : ℚ, List.foldl min a l ∈ a :: l := by
  induction l with
  | nil => exact fun a => List.mem_singleton.mpr rfl
  | cons c t ih =>
    intro a
    have hmem := ih (min a c)
    rcases List.mem_cons.mp hmem with h | h
    · rcases min_choice a c with hm | hm
      · have he : List.foldl min a (c :: t) = a := by
          show List.foldl min (min a c) t = a
          rw [h]; exact hm
        rw [he]; exact List.mem_cons_self a (c :: t)
      · have he : List.foldl min a (c :: t) = c := by
          show List.foldl min (min a c) t = c
          rw [h]; exact hm
        rw [he]; exact List.mem_cons_of_mem a (List.mem_cons_self c t)
    · exact List.mem_cons_of_mem a (List.mem_cons_of_mem c h)

/-- The running maximum never drops below its seed. -/
lemma foldl_max_ge_init (l : List ℚ) : ∀ a : ℚ, a ≤ List.foldl max a l := by
  induction l with
  | nil => exact fun a => le_refl a
  | cons c t ih =>
    intro a
    calc a ≤ max a c := le_max_left a c
    _ ≤ List.foldl max (max a c) t := ih (max a c)

/-- Python max over a non-empty list bounds every element from above. -/
lemma foldl_max_ge (l : List ℚ) : ∀ a : ℚ, ∀ b ∈ a :: l, b ≤ List.foldl max a l := by
  induction l with
  | nil =>
    intro a b hb
    rw [List.mem_singleton.mp hb]
    exact le_refl a
  | cons c t ih =>
    intro a b hb
    rcases List.mem_cons.mp hb with rfl | hb'
    · exact foldl_max_ge_init (c :: t) b
    · rcases List.mem_cons.mp hb' with rfl | hb''
      · calc b ≤ max a b := le_max_right a b
        _ ≤ List.foldl max (max a b) t := foldl_max_ge_init t (max a b)
      · exact ih (max a c) b (List.mem_cons_of_mem _ hb'')

/-- Python max over a non-empty list is one of its elements. -/
lemma foldl_max_mem (l : List ℚ) : ∀ a : ℚ, List.foldl max a l ∈ a :: l := by
  induction l with
  | nil => exact fun a => List.mem_singleton.mpr rfl
  | cons c t ih =>
    intro a
    have hmem := ih (max a c)
    rcases List.mem_cons.mp hmem with h | h
    · rcases max_choice a c with hm | hm
      · have he : List.foldl max a (c :: t) = a := by
          show List.foldl max (max a c) t = a
          rw [h]; exact hm
        rw [he]; exact List.mem_cons_self a (c :: t)
      · have he : List.foldl max a (c :: t) = c := by
          show List.foldl max (max a c) t = c
          rw [h]; exact hm
        rw [he]; exact List.mem_cons_of_mem a (List.mem_cons_self c t)
    · exact List.mem_cons_of_mem a (List.mem_cons_of_mem c h)

/-- Python list.index finds its argument: the element at the found index is
the argument. -/
lemma indexOf_get? {l : List ℚ} {a : ℚ} (h : a ∈ l) :
    l.get? (List.indexOf a l) = some a := by
  have hlt : List.indexOf a l < l.length := List.indexOf_lt_length.mpr h
  rw [List.get?_eq_some]
  exact ⟨hlt, List.indexOf_get hlt⟩

/-- Python list.index finds the first occurrence: every earlier element
differs from the argument. -/
lemma indexOf_lt_ne {l : List ℚ} {a : ℚ} :
    ∀ {j : ℕ}, j < List.indexOf a l → ∀ b, l.get? j = some b → b ≠ a := by
  induction l with
  | nil => intro j hj b hb; simp at hb
  | cons c t ih =>
    intro j hj b hb
    rw [List.indexOf_cons] at hj
    by_cases hc : c = a
    · simp [hc] at hj
    · have hbeq : (c == a) = false := beq_eq_false_iff_ne.mpr hc
      rw [hbeq] at hj
      simp only [cond_false] at hj
      cases j with
      | zero =>
        simp at hb
        subst hb
        exact hc
      | succ j' =>
        exact @ih j' (by omega) b (by simpa using hb)

/-! ## Claim C1 -/

/-- C1: on every non-empty mapping with nonnegative values, the Aggregator
returns a record whose fastest and slowest entries are actual entries of
the mapping at the first position attaining the minimum and the maximum
value; every value lies between fastest_time and slowest_time; the average
is the arithmetic mean; and the ratio is slowest over fastest unless the
fastest time is zero, in which case it is the float infinity (also when the
slowest time is zero as well). -/
theorem analyze_results_spec (results : List (String × ℚ)) (hne : results ≠ [])
    (hnn : ∀ kv ∈ results, 0 ≤ kv.2) :
    ∃ a, analyze_results results = some a ∧
      (∀ kv ∈ results, a.fastest_time ≤ kv.2 ∧ kv.2 ≤ a.slowest_time) ∧
      (∃ i, results.get? i = some (a.fastest_product, a.fastest_time) ∧
        ∀ j, j < i → ∀ kv, results.get? j = some kv → a.fastest_time < kv.2) ∧
      (∃ i, results.get? i = some (a.slowest_product, a.slowest_time) ∧
        ∀ j, j < i → ∀ kv, results.get? j = some kv → kv.2 < a.slowest_time) ∧
      a.average_time = (results.map Prod.snd).sum / (results.length : ℚ) ∧
      a.total_products = results.length ∧
      (a.fastest_time = 0 → a.performance_ratio = PyFloat.inf) ∧
      (a.fastest_time ≠ 0 →
        a.performance_ratio = PyFloat.val (a.slowest_time / a.fastest_time)) := by
  match results, hne with
  | (k, v) :: rest, _ =>
    set results := (k, v) :: rest with hres
    set l := rest.map Prod.snd with hl
    have htimes : results.map Prod.snd = v :: l := by rw [hres, hl]; rfl
    set M := List.foldl min v l with hM
    set X := List.foldl max v l with hX
    have hMmem : M ∈ results.map Prod.snd := htimes ▸ foldl_min_mem l v
    have hXmem : X ∈ results.map Prod.snd := htimes ▸ foldl_max_mem l v
    have hMle : ∀ kv ∈ results, M ≤ kv.2 := by
      intro kv hkv
      exact foldl_min_le l v kv.2 (htimes ▸ List.mem_map_of_mem Prod.snd hkv)
    have hXge : ∀ kv ∈ results, kv.2 ≤ X := by
      intro kv hkv
      exact foldl_max_ge l v kv.2 (htimes ▸ List.mem_map_of_mem Prod.snd hkv)
    have hMnn : 0 ≤ M := by
      obtain ⟨kv, hkv, hkv2⟩ := List.mem_map.mp hMmem
      exact hkv2 ▸ hnn kv hkv
    refine ⟨_, rfl, ?_, ?_, ?_, rfl, rfl, ?_, ?_⟩
    · exact fun kv hkv => ⟨hMle kv hkv, hXge kv hkv⟩
    · refine ⟨List.indexOf M (results.map Prod.snd), ?_, ?_⟩
      · have hidx := indexOf_get? hMmem
        rw [List.get?_map] at hidx
        rcases hget : results.get? (List.indexOf M (results.map Prod.snd)) with _ | kv
        · rw [hget] at hidx
          exact Option.noConfusion hidx
        · rw [hget] at hidx
          rw [Option.map_some'] at hidx
          have hkv2 : kv.2 = M := Option.some.inj hidx
          have hkv1 : (results.map Prod.fst).getD (List.indexOf M (results.map Prod.snd)) "" =
              kv.1 := by
            rw [List.getD_eq_get?, List.get?_map, hget]
            rfl
          exact congrArg some (Prod.ext hkv1.symm hkv2)
      · intro j hj kv hget
        have hne' : kv.2 ≠ M := by
          refine indexOf_lt_ne hj kv.2 ?_
          rw [List.get?_map, hget]
          rfl
        exact lt_of_le_of_ne (hMle kv (List.get?_mem hget)) (Ne.symm hne')
    · refine ⟨List.indexOf X (results.map Prod.snd), ?_, ?_⟩
      · have hidx := indexOf_get? hXmem
        rw [List.get?_map] at hidx
        rcases hget : results.get? (List.indexOf X (results.map Prod.snd)) with _ | kv
        · rw [hget] at hidx
          exact Option.noConfusion hidx
        · rw [hget] at hidx
          rw [Option.map_some'] at hidx
          have hkv2 : kv.2 = X := Option.some.inj hidx
          have hkv1 : (results.map Prod.fst).getD (List.indexOf X (results.map Prod.snd)) "" =
              kv.1 := by
            rw [List.getD_eq_get?, List.get?_map, hget]
            rfl
          exact congrArg some (Prod.ext hkv1.symm hkv2)
      · intro j hj kv hget
        have hne' : kv.2 ≠ X := by
          refine indexOf_lt_ne hj kv.2 ?_
          rw [List.get?_map, hget]
          rfl
        exact lt_of_le_of_ne (hXge kv (List.get?_mem hget)) hne'
    · intro h0
      show (if 0 < M then PyFloat.val (X / M) else PyFloat.inf) = PyFloat.inf
      rw [if_neg (by rw [show M = (0 : ℚ) from h0]; exact lt_irrefl 0)]
    · intro h0
      show (if 0 < M then PyFloat.val (X / M) else PyFloat.inf) = PyFloat.val (X / M)
      rw [if_pos (lt_of_le_of_ne hMnn (Ne.symm h0))]

/-- C1 witness: the theorem applied at a concrete two-entry mapping. -/
theorem analyze_results_spec_witness :
    ∃ a, analyze_results [("ProductA", 2), ("ProductB", 1)] = some a ∧
      (∀ kv ∈ [(("ProductA" : String), (2 : ℚ)), ("ProductB", 1)],
        a.fastest_time ≤ kv.2 ∧ kv.2 ≤ a.slowest_time) ∧
      (∃ i, [(("ProductA" : String), (2 : ℚ)), ("ProductB", 1)].get? i =
          some (a.fastest_product, a.fastest_time) ∧
        ∀ j, j < i → ∀ kv, [(("ProductA" : String), (2 : ℚ)), ("ProductB", 1)].get? j =
          some kv → a.fastest_time < kv.2) ∧
      (∃ i, [(("ProductA" : String), (2 : ℚ)), ("ProductB", 1)].get? i =
          some (a.slowest_product, a.slowest_time) ∧
        ∀ j, j < i → ∀ kv, [(("ProductA" : String), (2 : ℚ)), ("ProductB", 1)].get? j =
          some kv → kv.2 < a.slowest_time) ∧
      a.average_time =
        ([(("ProductA" : String), (2 : ℚ)), ("ProductB", 1)].map Prod.snd).sum /
          (([(("ProductA" : String), (2 : ℚ)), ("ProductB", 1)].length : ℕ) : ℚ) ∧
      a.total_products = [(("ProductA" : String), (2 : ℚ)), ("ProductB", 1)].length ∧
      (a.fastest_time = 0 → a.performance_ratio = PyFloat.inf) ∧
      (a.fastest_time ≠ 0 →
        a.performance_ratio = PyFloat.val (a.slowest_time / a.fastest_time)) :=
  analyze_results_spec [("ProductA", 2), ("ProductB", 1)] (by simp)
    (by
      intro kv hkv
      rcases List.mem_cons.mp hkv with rfl | h
      · norm_num
      · rw [List.mem_singleton.mp h]; norm_num)

/-! ## Claim C8 -/

/-- C8: the Aggregator applied to an empty mapping returns an explicitly
empty result (no fields populated) and does not raise: in the embedding,
analyze_results of the empty association list is none, and the function is
total. -/
theorem analyze_results_empty : analyze_results [] = none := rfl

/-! ## Helper lemmas about the rendered strings -/

/-- A decimal digit character is never the letter A. -/
lemma charOfNat_digit_ne_A : ∀ m, m < 10 → Char.ofNat (48 + m) ≠ 'A' := by decide

/-- The digit character function never yields the letter A. -/
lemma digitChar_ne_A (m : ℕ) : digitChar m ≠ 'A' :=
  charOfNat_digit_ne_A (m % 10) (Nat.mod_lt m (by norm_num))

/-- A digit string ends in a digit character. -/
lemma natDecimalAux_getLast (fuel n : ℕ) :
    ∃ m, (natDecimalAux fuel n).getLast? = some (digitChar m) := by
  cases fuel with
  | zero => exact ⟨n, rfl⟩
  | succ f =>
    by_cases h : n < 10
    · exact ⟨n, by simp [natDecimalAux, h]⟩
    · exact ⟨n % 10, by simp [natDecimalAux, h, List.getLast?_concat]⟩

/-- A digit string is never empty. -/
lemma natDecimal_ne_nil (n : ℕ) : natDecimal n ≠ [] := by
  unfold natDecimal
  cases n with
  | zero => simp [natDecimalAux]
  | succ n' =>
    unfold natDecimalAux
    by_cases h : n' + 1 < 10
    · simp [h]
    · simp [h]

/-- Leading zero padding does not change the final character. -/
lemma padZeros_getLast (d : ℕ) (l : List Char) (h : l ≠ []) :
    (padZeros d l).getLast? = l.getLast? := by
  unfold padZeros
  rw [List.getLast?_append]
  cases hl : l.getLast? with
  | some c => rfl
  | none => exact absurd (List.getLast?_eq_none.mp hl) h

/-- A string whose final character is not the letter A differs from the
string N/A, whatever is appended in front. -/
lemma append_ne_NA (s t : String) (c : Char) (h : t.data.getLast? = some c)
    (hc : c ≠ 'A') : s ++ t ≠ "N/A" := by
  intro he
  have hdata : s.data ++ t.data = ['N', '/', 'A'] := by
    have h2 := congrArg String.data he
    rw [String.data_append] at h2
    exact h2
  have h3 : (s.data ++ t.data).getLast? = some 'A' := by rw [hdata]; rfl
  rw [List.getLast?_append, h] at h3
  exact hc (Option.some.inj h3)

/-- Fixed-point rendering never yields the string N/A: its final character
is a decimal digit. -/
lemma fmtFixed_ne_NA (q : ℚ) (d : ℕ) : fmtFixed q d ≠ "N/A" := by
  unfold fmtFixed
  obtain ⟨m, hm⟩ :=
    natDecimalAux_getLast ((roundHalfEven (q * (10 : ℚ) ^ d)).natAbs % 10 ^ d)
      ((roundHalfEven (q * (10 : ℚ) ^ d)).natAbs % 10 ^ d)
  refine append_ne_NA _ _ (digitChar m) ?_ (digitChar_ne_A m)
  show (padZeros d (natDecimal _)).getLast? = some (digitChar m)
  rw [padZeros_getLast _ _ (natDecimal_ne_nil _)]
  exact hm

/-- The integer rendering appended with a unit letter B never yields the
string N/A. -/
lemma format_memory_some_ne_NA (m : ℤ) : format_memory (some m) ≠ "N/A" := by
  show (if m < 1024 then intDecimal m ++ " B"
    else if m < 1024 ^ 2 then fmtFixed ((m : ℚ) / 1024) 2 ++ " KB"
    else if m < 1024 ^ 3 then fmtFixed ((m : ℚ) / 1024 ^ 2) 2 ++ " MB"
    else fmtFixed ((m : ℚ) / 1024 ^ 3) 2 ++ " GB") ≠ "N/A"
  by_cases h1 : m < 1024
  · rw [if_pos h1]
    exact append_ne_NA _ " B" 'B' rfl (by decide)
  · rw [if_neg h1]
    by_cases h2 : m < 1024 ^ 2
    · rw [if_pos h2]
      exact append_ne_NA _ " KB" 'B' rfl (by decide)
    · rw [if_neg h2]
      by_cases h3 : m < 1024 ^ 3
      · rw [if_pos h3]
        exact append_ne_NA _ " MB" 'B' rfl (by decide)
      · rw [if_neg h3]
        exact append_ne_NA _ " GB" 'B' rfl (by decide)

/-! ## Claim C5 -/

/-- C5 counterexample: a result with a present zero memory usage and a
present zero cpu usage renders both columns as N/A, although the formatted
zero memory value would be the string 0 B; the claim that N/A appears if
and only if the value is absent therefore fails at this input. -/
theorem generate_report_zero_usage_counterexample :
    (reportRow (BenchmarkResult.mk "z" 1 (some 0) (some 0) 1 [])).get? 2 = some "N/A" ∧
    (reportRow (BenchmarkResult.mk "z" 1 (some 0) (some 0) 1 [])).get? 3 = some "N/A" ∧
    (BenchmarkResult.mk "z" 1 (some 0) (some 0) 1 []).memory_usage ≠ none ∧
    (BenchmarkResult.mk "z" 1 (some 0) (some 0) 1 []).cpu_usage ≠ none ∧
    format_memory (some 0) = "0 B" := by
  refine ⟨rfl, rfl, ?_, ?_, rfl⟩
  · simp
  · simp

/-- C5 as amended: the tabular report renders the memory column as N/A
exactly when memory_usage is None or a present zero (Python truthiness),
and the formatted memory string otherwise; likewise the cpu column is N/A
exactly when cpu_usage is None or a present zero, and the value with one
decimal otherwise. -/
theorem generate_report_cells_na (r : BenchmarkResult) :
    ((reportRow r).get? 2 = some "N/A" ↔
      r.memory_usage = none ∨ r.memory_usage = some 0) ∧
    (∀ m, r.memory_usage = some m → m ≠ 0 →
      (reportRow r).get? 2 = some (format_memory (some m))) ∧
    ((reportRow r).get? 3 = some "N/A" ↔
      r.cpu_usage = none ∨ r.cpu_usage = some 0) ∧
    (∀ c, r.cpu_usage = some c → c ≠ 0 →
      (reportRow r).get? 3 = some (fmtFixed c 1)) := by
  have hmem : (reportRow r).get? 2 = some (memCell r) := rfl
  have hcpu : (reportRow r).get? 3 = some (cpuCell r) := rfl
  refine ⟨?_, ?_, ?_, ?_⟩
  · rw [hmem]
    rcases hmu : r.memory_usage with _ | m
    · simp [memCell, hmu]
    · by_cases hm0 : m = 0
      · subst hm0
        simp [memCell, hmu]
      · simp [memCell, hmu, hm0, format_memory_some_ne_NA m]
  · intro m hm hm0
    rw [hmem]
    simp [memCell, hm, hm0]
  · rw [hcpu]
    rcases hcu : r.cpu_usage with _ | c
    · simp [cpuCell, hcu]
    · by_cases hc0 : c = 0
      · subst hc0
        simp [cpuCell, hcu]
      · simp [cpuCell, hcu, hc0, fmtFixed_ne_NA c 1]
  · intro c hc hc0
    rw [hcpu]
    simp [cpuCell, hc, hc0]

/-! ## Helper lemmas about the report sorting -/

/-- The execution time branch of the sorting step. -/
lemma sortResults_time (results : List BenchmarkResult) :
    sortResults results "execution_time" = Except.ok (results.mergeSort timeGe) := rfl

/-- The memory branch of the sorting step. -/
lemma sortResults_memory (results : List BenchmarkResult) :
    sortResults results "memory_usage" = Except.ok (results.mergeSort memGe) := rfl

/-- The name branch of the sorting step, under no empty name. -/
lemma sortResults_name (results : List BenchmarkResult)
    (hx : results.any (fun r => r.name == "") = false) :
    sortResults results "name" = Except.ok (results.mergeSort nameLe) := by
  unfold sortResults
  rw [hx]
  rfl

/-- A name that is no attribute of BenchmarkResult raises AttributeError in
the key function, which generate_report catches: insertion order. -/
lemma sortResults_unknown (results : List BenchmarkResult) (sortBy : String)
    (h : sortBy ∉ (["name", "execution_time", "memory_usage", "cpu_usage",
      "iterations", "metadata"] : List String)) :
    sortResults results sortBy = Except.ok results := by
  simp only [List.mem_cons, List.mem_singleton, not_or] at h
  obtain ⟨h1, h2, h3, h4, h5, h6, -⟩ := h
  unfold sortResults
  rw [if_neg h1, if_neg h2, if_neg h3, if_neg h4, if_neg h5, if_neg h6]

/-- Reduction of generate_report on a non-empty result list once the
sorting step is known. -/
lemma generate_report_of_sort (results : List BenchmarkResult) (sortBy : String)
    (sorted : List BenchmarkResult) (hne : results ≠ [])
    (hs : sortResults results sortBy = Except.ok sorted) :
    generate_report results sortBy = Except.ok (ReportOutput.table (sorted.map reportRow)) := by
  unfold generate_report
  have hempty : results.isEmpty = false := by
    cases results with
    | nil => exact absurd rfl hne
    | cons a t => rfl
  rw [hempty, hs]
  rfl

/-! ## Claim C6 -/

/-- C6 counterexample: under the name sort key, a result list holding an
empty and a non-empty name makes the key expression coerce the empty name
to the integer zero; comparing that key with a string key raises TypeError,
which generate_report does not catch, so no sorted table is produced. -/
theorem generate_report_name_typeerror_counterexample :
    generate_report
      [BenchmarkResult.mk "" 1 none none 1 [], BenchmarkResult.mk "a" 2 none none 1 []]
      "name" = Except.error PyError.typeError := rfl

/-- C6 as amended: on every non-empty result list, generate_report sorts
rows descending by value for the execution time and memory keys, ascending
alphabetically for the name key provided no result carries an empty name
(an empty name is coerced to an integer key, and comparing it against a
string key raises TypeError), and returns the rows in insertion order
without raising for every name that is no attribute of the result record. -/
theorem generate_report_sorting (results : List BenchmarkResult) (sortBy : String)
    (hne : results ≠ []) :
    (sortBy = "execution_time" →
      ∃ out : List BenchmarkResult, generate_report results sortBy =
          Except.ok (ReportOutput.table (out.map reportRow)) ∧
        out.Perm results ∧
        out.Pairwise (fun a b => b.execution_time ≤ a.execution_time)) ∧
    (sortBy = "memory_usage" →
      ∃ out : List BenchmarkResult, generate_report results sortBy =
          Except.ok (ReportOutput.table (out.map reportRow)) ∧
        out.Perm results ∧
        out.Pairwise (fun a b => b.memory_usage.getD 0 ≤ a.memory_usage.getD 0)) ∧
    (sortBy = "name" → (∀ r ∈ results, r.name ≠ "") →
      ∃ out : List BenchmarkResult, generate_report results sortBy =
          Except.ok (ReportOutput.table (out.map reportRow)) ∧
        out.Perm results ∧
        out.Pairwise (fun a b => a.name ≤ b.name)) ∧
    (sortBy ∉ (["name", "execution_time", "memory_usage", "cpu_usage",
        "iterations", "metadata"] : List String) →
      generate_report results sortBy =
        Except.ok (ReportOutput.table (results.map reportRow))) := by
  refine ⟨?_, ?_, ?_, ?_⟩
  · rintro rfl
    refine ⟨results.mergeSort timeGe, ?_, List.mergeSort_perm results timeGe, ?_⟩
    · exact generate_report_of_sort results _ _ hne (sortResults_time results)
    · have hp := @List.sorted_mergeSort BenchmarkResult timeGe
        (fun a b c hab hbc => by
          simp only [timeGe, decide_eq_true_eq] at hab hbc ⊢
          exact le_trans hbc hab)
        (fun a b => by
          simp only [timeGe, Bool.or_eq_true, decide_eq_true_eq]
          exact le_total b.execution_time a.execution_time)
        results
      exact hp.imp (fun hab => by simpa [timeGe] using hab)
  · rintro rfl
    refine ⟨results.mergeSort memGe, ?_, List.mergeSort_perm results memGe, ?_⟩
    · exact generate_report_of_sort results _ _ hne (sortResults_memory results)
    · have hp := @List.sorted_mergeSort BenchmarkResult memGe
        (fun a b c hab hbc => by
          simp only [memGe, decide_eq_true_eq] at hab hbc ⊢
          exact le_trans hbc hab)
        (fun a b => by
          simp only [memGe, Bool.or_eq_true, decide_eq_true_eq]
          exact le_total (b.memory_usage.getD 0) (a.memory_usage.getD 0))
        results
      exact hp.imp (fun hab => by simpa [memGe] using hab)
  · rintro rfl hnames
    have hx : results.any (fun r => r.name == "") = false := by
      rw [List.any_eq_false]
      intro r hr
      simpa using hnames r hr
    refine ⟨results.mergeSort nameLe, ?_, List.mergeSort_perm results nameLe, ?_⟩
    · exact generate_report_of_sort results _ _ hne (sortResults_name results hx)
    · have hp := @List.sorted_mergeSort BenchmarkResult nameLe
        (fun a b c hab hbc => by
          simp only [nameLe, decide_eq_true_eq] at hab hbc ⊢
          exact le_trans hab hbc)
        (fun a b => by
          simp only [nameLe, Bool.or_eq_true, decide_eq_true_eq]
          exact le_total a.name b.name)
        results
      exact hp.imp (fun hab => by simpa [nameLe] using hab)
  · intro h
    exact generate_report_of_sort results _ _ hne (sortResults_unknown results sortBy h)

/-- C6 witness: the theorem applied at a concrete two-element result list
and the name sort key. -/
theorem generate_report_sorting_witness :
    (("name" : String) = "execution_time" →
      ∃ out : List BenchmarkResult, generate_report
          [BenchmarkResult.mk "b" 1 none none 1 [], BenchmarkResult.mk "a" 2 none none 1 []]
          "name" = Except.ok (ReportOutput.table (out.map reportRow)) ∧
        out.Perm
          [BenchmarkResult.mk "b" 1 none none 1 [], BenchmarkResult.mk "a" 2 none none 1 []] ∧
        out.Pairwise (fun a b => b.execution_time ≤ a.execution_time)) ∧
    (("name" : String) = "memory_usage" →
      ∃ out : List BenchmarkResult, generate_report
          [BenchmarkResult.mk "b" 1 none none 1 [], BenchmarkResult.mk "a" 2 none none 1 []]
          "name" = Except.ok (ReportOutput.table (out.map reportRow)) ∧
        out.Perm
          [BenchmarkResult.mk "b" 1 none none 1 [], BenchmarkResult.mk "a" 2 none none 1 []] ∧
        out.Pairwise (fun a b => b.memory_usage.getD 0 ≤ a.memory_usage.getD 0)) ∧
    (("name" : String) = "name" →
      (∀ r ∈ [BenchmarkResult.mk "b" 1 none none 1 [],
          BenchmarkResult.mk "a" 2 none none 1 []], r.name ≠ "") →
      ∃ out : List BenchmarkResult, generate_report
          [BenchmarkResult.mk "b" 1 none none 1 [], BenchmarkResult.mk "a" 2 none none 1 []]
          "name" = Except.ok (ReportOutput.table (out.map reportRow)) ∧
        out.Perm
          [BenchmarkResult.mk "b" 1 none none 1 [], BenchmarkResult.mk "a" 2 none none 1 []] ∧
        out.Pairwise (fun a b => a.name ≤ b.name)) ∧
    (("name" : String) ∉ (["name", "execution_time", "memory_usage", "cpu_usage",
        "iterations", "metadata"] : List String) →
      generate_report
          [BenchmarkResult.mk "b" 1 none none 1 [], BenchmarkResult.mk "a" 2 none none 1 []]
          "name" =
        Except.ok (ReportOutput.table
          ([BenchmarkResult.mk "b" 1 none none 1 [],
            BenchmarkResult.mk "a" 2 none none 1 []].map reportRow))) :=
  generate_report_sorting
    [BenchmarkResult.mk "b" 1 none none 1 [], BenchmarkResult.mk "a" 2 none none 1 []]
    "name" (by simp)

/-! ## Claim C7 -/

/-- C7: the CSV rows are the fixed header, then one row per product in
ascending time order carrying the one-based rank, then, exactly when an
analysis record is supplied, a blank separator row, the Analysis/Value
header row and six key/value rows; the total row count is the header plus
one per product plus, with an analysis, eight more. -/
theorem save_to_csv_spec (results : List (String × ℚ)) (analysis : Option Analysis) :
    ∃ sorted : List (String × ℚ), sorted.Perm results ∧
      sorted.Pairwise (fun a b => a.2 ≤ b.2) ∧
      (save_to_csv results analysis).get? 0 =
        some [CsvCell.s "Product", CsvCell.s "Execution_Time_Seconds", CsvCell.s "Rank"] ∧
      (∀ i kv, sorted.get? i = some kv →
        (save_to_csv results analysis).get? (i + 1) =
          some [CsvCell.s kv.1, CsvCell.q kv.2, CsvCell.n (i + 1)]) ∧
      (save_to_csv results analysis).length =
        1 + results.length + (match analysis with | some _ => 8 | none => 0) ∧
      (∀ a, analysis = some a →
        (save_to_csv results analysis).drop (1 + results.length) =
          [[],
           [CsvCell.s "Analysis", CsvCell.s "Value"],
           [CsvCell.s "Fastest_Product", CsvCell.s a.fastest_product],
           [CsvCell.s "Fastest_Time", CsvCell.q a.fastest_time],
           [CsvCell.s "Slowest_Product", CsvCell.s a.slowest_product],
           [CsvCell.s "Slowest_Time", CsvCell.q a.slowest_time],
           [CsvCell.s "Performance_Ratio", CsvCell.f a.performance_ratio],
           [CsvCell.s "Average_Time", CsvCell.q a.average_time]]) ∧
      (analysis = none →
        (save_to_csv results analysis).drop (1 + results.length) = []) := by
  refine ⟨results.mergeSort (fun a b => decide (a.2 ≤ b.2)),
    List.mergeSort_perm results _, ?_, ?_, ?_, ?_, ?_, ?_⟩
  · have hp := @List.sorted_mergeSort (String × ℚ) (fun a b => decide (a.2 ≤ b.2))
      (fun a b c hab hbc => by
        simp only [decide_eq_true_eq] at hab hbc ⊢
        exact le_trans hab hbc)
      (fun a b => by
        simp only [Bool.or_eq_true, decide_eq_true_eq]
        exact le_total a.2 b.2)
      results
    exact hp.imp (fun hab => by simpa using hab)
  · rfl
  · intro i kv hget
    have hi : i < (results.mergeSort (fun a b => decide (a.2 ≤ b.2))).length := by
      rcases List.get?_eq_some.mp hget with ⟨hlt, _⟩
      exact hlt
    show (_ :: ((List.enumFrom 1 (results.mergeSort (fun a b => decide (a.2 ≤ b.2)))).map
        (fun x => [CsvCell.s x.2.1, CsvCell.q x.2.2, CsvCell.n x.1]) ++ _)).get? (i + 1) = _
    rw [List.get?_cons_succ]
    rw [List.get?_append (by simpa using hi)]
    rw [List.get?_map, List.get?_enumFrom, hget]
    show some [CsvCell.s kv.1, CsvCell.q kv.2, CsvCell.n (1 + i)] = _
    rw [Nat.add_comm 1 i]
  · cases analysis with
    | none =>
      simp [save_to_csv, List.length_mergeSort, List.enumFrom_length]
      omega
    | some a =>
      simp [save_to_csv, List.length_mergeSort, List.enumFrom_length]
      omega
  · intro a ha
    subst ha
    have hsplit : save_to_csv results (some a) =
        ([[CsvCell.s "Product", CsvCell.s "Execution_Time_Seconds", CsvCell.s "Rank"]] ++
          (List.enumFrom 1 (results.mergeSort (fun a b => decide (a.2 ≤ b.2)))).map
            (fun x => [CsvCell.s x.2.1, CsvCell.q x.2.2, CsvCell.n x.1])) ++
        [[],
         [CsvCell.s "Analysis", CsvCell.s "Value"],
         [CsvCell.s "Fastest_Product", CsvCell.s a.fastest_product],
         [CsvCell.s "Fastest_Time", CsvCell.q a.fastest_time],
         [CsvCell.s "Slowest_Product", CsvCell.s a.slowest_product],
         [CsvCell.s "Slowest_Time", CsvCell.q a.slowest_time],
         [CsvCell.s "Performance_Ratio", CsvCell.f a.performance_ratio],
         [CsvCell.s "Average_Time", CsvCell.q a.average_time]] := rfl
    rw [hsplit]
    have hlen : ([[CsvCell.s "Product", CsvCell.s "Execution_Time_Seconds", CsvCell.s "Rank"]] ++
        (List.enumFrom 1 (results.mergeSort (fun a b => decide (a.2 ≤ b.2)))).map
          (fun x => [CsvCell.s x.2.1, CsvCell.q x.2.2, CsvCell.n x.1])).length =
        1 + results.length := by
      rw [List.length_append, List.length_map, List.enumFrom_length, List.length_mergeSort]
      rfl
    rw [← hlen, List.drop_left]
  · intro ha
    subst ha
    have hsplit : save_to_csv results none =
        ([[CsvCell.s "Product", CsvCell.s "Execution_Time_Seconds", CsvCell.s "Rank"]] ++
          (List.enumFrom 1 (results.mergeSort (fun a b => decide (a.2 ≤ b.2)))).map
            (fun x => [CsvCell.s x.2.1, CsvCell.q x.2.2, CsvCell.n x.1])) ++
        ([] : List (List CsvCell)) := rfl
    rw [hsplit]
    have hlen : ([[CsvCell.s "Product", CsvCell.s "Execution_Time_Seconds", CsvCell.s "Rank"]] ++
        (List.enumFrom 1 (results.mergeSort (fun a b => decide (a.2 ≤ b.2)))).map
          (fun x => [CsvCell.s x.2.1, CsvCell.q x.2.2, CsvCell.n x.1])).length =
        1 + results.length := by
      rw [List.length_append, List.length_map, List.enumFrom_length, List.length_mergeSort]
      rfl
    rw [← hlen, List.drop_left]
